import Mathlib

/-!
Shallow embedding of the SteamGamesDownloader server core
(src/server/storage.ts, src/server/routes.ts, src/server/steamcmd.ts,
src/server/compressor.ts) and proofs about its queue scheduler,
transfer registry and compression runner.

JavaScript `Map<K, V>` objects are modelled as insertion-ordered
association lists `List (K × V)`; `Map.get`, `Map.set` and `Map.delete`
become `mapGet`, `mapSet` and `mapErase` below.  `Date` values are
modelled as natural-number timestamps supplied by the caller (`now`),
and filesystem or child-process effects are modelled as explicit
oracle parameters of the operations that perform them.
-/

namespace SGD

/-- `Map.get`: first binding of the key, if any. -/
def mapGet {κ α : Type} [DecidableEq κ] : List (κ × α) → κ → Option α
  | [], _ => none
  | p :: rest, k => if p.1 = k then some p.2 else mapGet rest k

/-- `Map.set`: replace the binding of the key in place, or append a new one. -/
def mapSet {κ α : Type} [DecidableEq κ] : List (κ × α) → κ → α → List (κ × α)
  | [], k, v => [(k, v)]
  | p :: rest, k, v => if p.1 = k then (k, v) :: rest else p :: mapSet rest k v

/-- `Map.delete`: remove the binding of the key (a JS map holds at most one). -/
def mapErase {κ α : Type} [DecidableEq κ] (l : List (κ × α)) (k : κ) : List (κ × α) :=
  l.filter (fun p => decide (p.1 ≠ k))

/-- `Map.has`. -/
def mapHas {κ α : Type} [DecidableEq κ] (l : List (κ × α)) (k : κ) : Bool :=
  l.any (fun p => decide (p.1 = k))

/-- `Map.values()` in insertion order. -/
def mapValues {κ α : Type} (l : List (κ × α)) : List α := l.map Prod.snd

/-- Download status strings used by the server (shared/schema.ts `DownloadStatus`). -/
inductive DStatus where
  | queued | downloading | paused | completed | failed | canceled
deriving DecidableEq, Repr

/-- One row of `MemStorage.downloadsList` with the fields storage.ts reads and
writes (`createDownload`, storage.ts:175-203). -/
structure Download where
  id : Nat
  appId : String
  title : String
  status : DStatus
  totalSize : Option String
  installPath : Option String
  progress : Nat
  speed : String
  downloaded : String
  timeRemaining : String
  queuePosition : Option Nat
  dateAdded : Nat
  dateCompleted : Option Nat
  errorMessage : Option String
deriving DecidableEq, Repr

/-- `Partial<Download>`: each field is either absent (`none`) or supplied;
nullable columns carry an inner `Option` so that an explicitly supplied
`null` is distinguished from an absent key, exactly as in TypeScript. -/
structure DownloadUpdate where
  id : Option Nat := none
  appId : Option String := none
  title : Option String := none
  status : Option DStatus := none
  totalSize : Option (Option String) := none
  installPath : Option (Option String) := none
  progress : Option Nat := none
  speed : Option String := none
  downloaded : Option String := none
  timeRemaining : Option String := none
  queuePosition : Option (Option Nat) := none
  dateAdded : Option Nat := none
  dateCompleted : Option (Option Nat) := none
  errorMessage : Option (Option String) := none
deriving DecidableEq, Repr

/-- The object spread `{ ...download, ...update }` of storage.ts:212. -/
def applyUpdate (d : Download) (u : DownloadUpdate) : Download :=
  { id := u.id.getD d.id
    appId := u.appId.getD d.appId
    title := u.title.getD d.title
    status := u.status.getD d.status
    totalSize := u.totalSize.getD d.totalSize
    installPath := u.installPath.getD d.installPath
    progress := u.progress.getD d.progress
    speed := u.speed.getD d.speed
    downloaded := u.downloaded.getD d.downloaded
    timeRemaining := u.timeRemaining.getD d.timeRemaining
    queuePosition := u.queuePosition.getD d.queuePosition
    dateAdded := u.dateAdded.getD d.dateAdded
    dateCompleted := u.dateCompleted.getD d.dateCompleted
    errorMessage := u.errorMessage.getD d.errorMessage }

/-- JS truthiness of `update.dateCompleted` negated: `!update.dateCompleted` is
true when the key is absent or explicitly `null` (a `Date` object is always
truthy). -/
def dateCompletedFalsy (o : Option (Option Nat)) : Bool :=
  match o with
  | none => true
  | some none => true
  | some (some _) => false

/-- The comparator key `(d.queuePosition || 999)` of storage.ts:150,156,162:
`null` and `0` are falsy and collapse to 999. -/
def posKey (d : Download) : Nat :=
  match d.queuePosition with
  | none => 999
  | some 0 => 999
  | some p => p

/-- The accumulator view `(d.queuePosition || 0)` of storage.ts:181. -/
def posOrZero (d : Download) : Nat :=
  match d.queuePosition with
  | none => 0
  | some p => p

/-- Stable insertion of one element into a list sorted by `posKey`
(equal keys keep the inserted element first, matching a stable JS sort). -/
def insertByKey (d : Download) : List Download → List Download
  | [] => [d]
  | x :: xs => if posKey x < posKey d then x :: insertByKey d xs else d :: x :: xs

/-- Stable sort by `(queuePosition || 999)`, the comparator of
storage.ts:150/156/162 (`Array.prototype.sort` is stable). -/
def sortByPos : List Download → List Download
  | [] => []
  | x :: xs => insertByKey x (sortByPos xs)

/-- The in-memory store (`MemStorage`, storage.ts:50-86), restricted to the
download table used by the queue scheduler. -/
structure MemStorage where
  downloadsList : List (Nat × Download)
  downloadCurrentId : Nat
deriving DecidableEq, Repr

/-- `MemStorage.getActiveDownloads` (storage.ts:153-157). -/
def getActiveDownloads (s : MemStorage) : List Download :=
  sortByPos ((mapValues s.downloadsList).filter (fun d => decide (d.status = .downloading)))

/-- `MemStorage.getQueuedDownloads` (storage.ts:159-163). -/
def getQueuedDownloads (s : MemStorage) : List Download :=
  sortByPos ((mapValues s.downloadsList).filter (fun d => decide (d.status = .queued)))

/-- `MemStorage.getDownloadById` (storage.ts:165-167). -/
def getDownloadById (s : MemStorage) (id : Nat) : Option Download :=
  mapGet s.downloadsList id

/-- `MemStorage.getDownloadByAppId` (storage.ts:169-173): first value in
insertion order whose `appId` matches, with no status filter. -/
def getDownloadByAppId (s : MemStorage) (appId : String) : Option Download :=
  (mapValues s.downloadsList).find? (fun d => decide (d.appId = appId))

/-- `MemStorage.createDownload` (storage.ts:175-203). -/
def createDownload (s : MemStorage) (appId title : String)
    (totalSize installPath : Option String) (now : Nat) : Download × MemStorage :=
  let id := s.downloadCurrentId
  let maxQueue := ((mapValues s.downloadsList).map posOrZero).foldl max 0
  let newDownload : Download :=
    { id := id
      appId := appId
      title := title
      status := .queued
      totalSize := totalSize
      installPath := installPath
      progress := 0
      speed := "0 MB/s"
      downloaded := "0 B"
      timeRemaining := "Unknown"
      queuePosition := some (maxQueue + 1)
      dateAdded := now
      dateCompleted := none
      errorMessage := none }
  (newDownload,
   { downloadsList := mapSet s.downloadsList id newDownload
     downloadCurrentId := s.downloadCurrentId + 1 })

/-- `MemStorage.updateDownload` (storage.ts:205-221): merge the partial update,
then force `dateCompleted` to the current time when the update sets
`status = 'completed'` and `update.dateCompleted` is falsy. -/
def updateDownload (s : MemStorage) (id : Nat) (u : DownloadUpdate) (now : Nat) :
    Option Download × MemStorage :=
  match mapGet s.downloadsList id with
  | none => (none, s)
  | some d =>
    let merged := applyUpdate d u
    let updated :=
      if u.status = some .completed ∧ dateCompletedFalsy u.dateCompleted then
        { merged with dateCompleted := some now }
      else merged
    (some updated, { s with downloadsList := mapSet s.downloadsList id updated })

/-- `MemStorage.removeDownload` (storage.ts:223-225). -/
def removeDownload (s : MemStorage) (id : Nat) : Bool × MemStorage :=
  (mapHas s.downloadsList id, { s with downloadsList := mapErase s.downloadsList id })

/-- The indexed loop of `MemStorage.updateDownloadQueue` (storage.ts:227-245):
each listed id that is present in the map (no status check) gets
`queuePosition := index + 1`; absent ids are skipped. -/
def assignPositions : MemStorage → Nat → List Nat → MemStorage
  | s, _, [] => s
  | s, i, did :: rest =>
    let s' :=
      match mapGet s.downloadsList did with
      | none => s
      | some d =>
        { s with downloadsList :=
            mapSet s.downloadsList did { d with queuePosition := some (i + 1) } }
    assignPositions s' (i + 1) rest

/-- `MemStorage.updateDownloadQueue` (storage.ts:227-245); always returns true. -/
def updateDownloadQueue (s : MemStorage) (newOrder : List Nat) : MemStorage :=
  assignPositions s 0 newOrder

/-!
Route-level queue scheduler (src/server/routes.ts).  A `Sys` couples the
store with the `maxConcurrentDownloads` setting the scheduler re-reads on
every admission pass (routes.ts:521-522).  Only the store effects of each
handler are modelled here; the transfer registry of steamcmd.ts is
modelled separately below and does not influence store statuses.
-/

/-- Store plus the settings field the scheduler reads. -/
structure Sys where
  store : MemStorage
  maxConcurrentDownloads : Nat
deriving DecidableEq, Repr

/-- `settings.maxConcurrentDownloads || 1` (routes.ts:522): 0 (or null,
modelled as 0) falls back to 1. -/
def effectiveMax (sys : Sys) : Nat :=
  if sys.maxConcurrentDownloads = 0 then 1 else sys.maxConcurrentDownloads

/-- Synchronous prefix of `startDownload` (routes.ts:544-545): mark the entry
as downloading.  The interval bookkeeping and the asynchronous
completion/failure callbacks of routes.ts:554-631 are separate events and
are not part of the admission pass itself. -/
def startDownload (now : Nat) (s : MemStorage) (downloadId : Nat) : MemStorage :=
  (updateDownload s downloadId { status := some .downloading } now).2

/-- `processDownloadQueue` (routes.ts:511-540): return immediately if any
download is active; otherwise start the first `maxConcurrent` queued
downloads in stored queue order. -/
def processDownloadQueue (now : Nat) (sys : Sys) : Sys :=
  let active := getActiveDownloads sys.store
  if 0 < active.length then sys
  else
    let maxConcurrent := effectiveMax sys
    let queued := getQueuedDownloads sys.store
    if queued.length = 0 then sys
    else
      { sys with
        store := (queued.take maxConcurrent).foldl (fun st d => startDownload now st d.id) sys.store }

/-- `POST /api/downloads` (routes.ts:91-118): reject with 409 when any entry
with the same appId exists (no status filter), otherwise create the entry
and run an admission pass. -/
def postDownloadHandler (now : Nat) (sys : Sys) (appId title : String)
    (totalSize installPath : Option String) : Except String (Download × Sys) :=
  match getDownloadByAppId sys.store appId with
  | some _ => .error "This game is already in your download queue"
  | none =>
    let r := createDownload sys.store appId title totalSize installPath now
    .ok (r.1, processDownloadQueue now { sys with store := r.2 })

/-- `POST /api/downloads/:id/pause` (routes.ts:146-185): only a downloading
entry may be paused; the transfer is stopped, the entry set to paused, and
an admission pass runs. -/
def pauseHandler (now : Nat) (sys : Sys) (downloadId : Nat) : Except String Sys :=
  match getDownloadById sys.store downloadId with
  | none => .error "Download not found"
  | some d =>
    if d.status ≠ .downloading then .error "Can only pause active downloads"
    else
      .ok (processDownloadQueue now
        { sys with store := (updateDownload sys.store downloadId { status := some .paused } now).2 })

/-- The store mutation of the resume handler (routes.ts:208):
`updateDownload(id, { status: 'queued', queuePosition: 0 })`. -/
def resumeReset (now : Nat) (s : MemStorage) (downloadId : Nat) : MemStorage :=
  (updateDownload s downloadId { status := some .queued, queuePosition := some (some 0) } now).2

/-- `POST /api/downloads/:id/resume` (routes.ts:188-217): only a paused entry
may be resumed; it is reset to queued with `queuePosition = 0`, then an
admission pass runs. -/
def resumeHandler (now : Nat) (sys : Sys) (downloadId : Nat) : Except String Sys :=
  match getDownloadById sys.store downloadId with
  | none => .error "Download not found"
  | some d =>
    if d.status ≠ .paused then .error "Can only resume paused downloads"
    else .ok (processDownloadQueue now { sys with store := resumeReset now sys.store downloadId })

/-- `POST /api/downloads/:id/cancel` (routes.ts:220-257): any found entry is
set to canceled (the transfer is killed first when it was downloading), then
an admission pass runs. -/
def cancelHandler (now : Nat) (sys : Sys) (downloadId : Nat) : Except String Sys :=
  match getDownloadById sys.store downloadId with
  | none => .error "Download not found"
  | some _ =>
    .ok (processDownloadQueue now
      { sys with store := (updateDownload sys.store downloadId { status := some .canceled } now).2 })

/-- `DELETE /api/downloads/:id` (routes.ts:260-297): any found entry is
deleted, then an admission pass runs.  The route calls
`storage.deleteDownload`; the deletion method of `MemStorage` is
`removeDownload` (storage.ts:223), modelled here as the map deletion. -/
def deleteHandler (now : Nat) (sys : Sys) (downloadId : Nat) : Except String Sys :=
  match getDownloadById sys.store downloadId with
  | none => .error "Download not found"
  | some _ =>
    .ok (processDownloadQueue now
      { sys with store := (removeDownload sys.store downloadId).2 })

/-- User-facing queue operations of the claims: enqueue, pause, resume,
cancel, remove, each followed by its admission pass as wired in routes.ts. -/
inductive Op where
  | enqueue (appId title : String)
  | pause (id : Nat)
  | resume (id : Nat)
  | cancel (id : Nat)
  | remove (id : Nat)
deriving DecidableEq, Repr

/-- Apply one operation; a handler rejection (4xx) leaves the system
unchanged, exactly as the early returns of the handlers do. -/
def applyOp (now : Nat) (sys : Sys) : Op → Sys
  | .enqueue a t =>
    match postDownloadHandler now sys a t none none with
    | .ok r => r.2
    | .error _ => sys
  | .pause i =>
    match pauseHandler now sys i with
    | .ok s' => s'
    | .error _ => sys
  | .resume i =>
    match resumeHandler now sys i with
    | .ok s' => s'
    | .error _ => sys
  | .cancel i =>
    match cancelHandler now sys i with
    | .ok s' => s'
    | .error _ => sys
  | .remove i =>
    match deleteHandler now sys i with
    | .ok s' => s'
    | .error _ => sys

/-- Run a sequence of timestamped operations. -/
def runOps : Sys → List (Nat × Op) → Sys
  | sys, [] => sys
  | sys, (now, op) :: rest => runOps (applyOp now sys op) rest

/-- Fresh server state: empty store (storage.ts:62-71) with the given
`maxConcurrentDownloads` setting. -/
def initialSys (maxC : Nat) : Sys :=
  { store := { downloadsList := [], downloadCurrentId := 1 }
    maxConcurrentDownloads := maxC }

/-- Number of entries whose status is `downloading` (the active status). -/
def activeCount (s : MemStorage) : Nat :=
  (mapValues s.downloadsList).countP (fun d => decide (d.status = .downloading))

/-!
Transfer registry (src/server/steamcmd.ts).  The module-level
`activeDownloads` map (steamcmd.ts:16-22) keys process handles and
callbacks by download id.  Processes are identified by their pid; the
observable effects of the callbacks (`onError`, `onComplete`,
`process.kill()`, `stdin.write`) are recorded in logs so theorems can
talk about them.
-/

/-- A registered transfer: the spawned process and the appId it serves. -/
structure TransferEntry where
  pid : Nat
  appId : String
deriving DecidableEq, Repr

/-- A parsed progress record (steamcmd.ts:8-13). -/
structure DownloadProgress where
  progress : Nat
  speed : String
  downloaded : String
  timeRemaining : String
deriving DecidableEq, Repr

/-- Observable state of the steamcmd module: the registry plus logs of the
side effects the handlers perform. -/
structure SteamCmdState where
  activeDownloads : List (Nat × TransferEntry)
  killedPids : List Nat
  errorLog : List (Nat × String)
  completedLog : List Nat
  progressLog : List (Nat × DownloadProgress)
  stdinLog : List (Nat × String)
deriving DecidableEq, Repr

/-- Whether `pat` occurs at the head of `s` (character lists). -/
def matchesAt : List Char → List Char → Bool
  | _, [] => true
  | [], _ :: _ => false
  | c :: s, p :: ps => decide (c = p) && matchesAt s ps

/-- Whether `pat` occurs anywhere in `s` (character lists). -/
def containsPat : List Char → List Char → Bool
  | [], pat => matchesAt [] pat
  | c :: rest, pat => matchesAt (c :: rest) pat || containsPat rest pat

/-- `s.includes(pat)`: substring containment on the underlying characters. -/
def includesSubstr (s pat : String) : Bool := containsPat s.data pat.data

/-- `cancelDownload` (steamcmd.ts:143-153): kill the registered process and
drop the registry entry, returning whether one existed. -/
def cancelDownload (st : SteamCmdState) (downloadId : Nat) : Bool × SteamCmdState :=
  match mapGet st.activeDownloads downloadId with
  | some e =>
    (true,
     { st with
        killedPids := st.killedPids ++ [e.pid]
        activeDownloads := mapErase st.activeDownloads downloadId })
  | none => (false, st)

/-- `pauseDownload` (steamcmd.ts:158-161): SteamCMD cannot pause, so it just
calls `cancelDownload`. -/
def pauseDownload (st : SteamCmdState) (downloadId : Nat) : Bool × SteamCmdState :=
  cancelDownload st downloadId

/-- `submitSteamGuard` (steamcmd.ts:194-206): write the code plus newline to
the registered process's stdin; false when no transfer is registered. -/
def submitSteamGuard (st : SteamCmdState) (downloadId : Nat) (code : String) :
    Bool × SteamCmdState :=
  match mapGet st.activeDownloads downloadId with
  | some _ => (true, { st with stdinLog := st.stdinLog ++ [(downloadId, code ++ "\n")] })
  | none => (false, st)

/-- The stdout data handler installed by `downloadGame` (steamcmd.ts:82-98).
`pid` is the process of the closure, `parsed` the result of
`parseDownloadProgress(output)` and `rateLimitElapsed` the test
`Date.now() - lastProgressUpdate > 1000`, both supplied as oracles.  On a
Steam Guard prompt the handler reports a generic error and kills the
process. -/
def stdoutDataHandler (st : SteamCmdState) (downloadId pid : Nat) (output : String)
    (parsed : Option DownloadProgress) (rateLimitElapsed : Bool) : SteamCmdState :=
  let st1 :=
    match parsed, rateLimitElapsed with
    | some p, true => { st with progressLog := st.progressLog ++ [(downloadId, p)] }
    | _, _ => st
  if includesSubstr output "Steam Guard code:" then
    { st1 with
       errorLog := st1.errorLog ++ [(downloadId, "Steam Guard code required")]
       killedPids := st1.killedPids ++ [pid] }
  else st1

/-- Error classification of the close handler (steamcmd.ts:113-123). -/
def classifyExitError (stdoutData : String) (code : Int) : String :=
  if includesSubstr stdoutData "Invalid Password" then "Invalid username or password"
  else if includesSubstr stdoutData "rate limit exceeded" then
    "Rate limit exceeded, please try again later"
  else if includesSubstr stdoutData "No subscription" then
    "You do not own this game or need to be logged in"
  else "Download failed with code " ++ toString code

/-- The close handler installed by `downloadGame` (steamcmd.ts:107-125):
drop the registry entry, then report completion or a classified error. -/
def processCloseHandler (st : SteamCmdState) (downloadId : Nat) (code : Int)
    (stdoutData : String) : SteamCmdState :=
  let st1 := { st with activeDownloads := mapErase st.activeDownloads downloadId }
  if code = 0 then { st1 with completedLog := st1.completedLog ++ [downloadId] }
  else { st1 with errorLog := st1.errorLog ++ [(downloadId, classifyExitError stdoutData code)] }

/-!
Compression runner (src/server/compressor.ts).  Jobs live in the
module-level `activeCompressionJobs` map keyed by appId
(compressor.ts:27).  Filesystem facts (directory existence, directory
size, output-file stat) are oracle parameters.
-/

/-- `CompressionFormat` (shared/schema.ts:98). -/
inductive CompressionFormat where
  | zip | tar | sevenZ
deriving DecidableEq, Repr

/-- The file extension appended to the output path (compressor.ts:88). -/
def formatExt : CompressionFormat → String
  | .zip => "zip"
  | .tar => "tar"
  | .sevenZ => "7z"

/-- Status of a compression job (compressor.ts:15). -/
inductive CStatus where
  | pending | compressing | completed | failed
deriving DecidableEq, Repr

/-- `CompressionJob` (compressor.ts:12-24). -/
structure CompressionJob where
  appId : String
  title : String
  status : CStatus
  progress : Nat
  format : CompressionFormat
  startTime : Nat
  endTime : Option Nat
  errorMsg : Option String
  outputPath : Option String
  totalBytes : Option Nat
  compressedBytes : Option Nat
deriving DecidableEq, Repr

/-- A library row as far as the compressor reads it. -/
structure LibraryGame where
  appId : String
  title : String
  installPath : String
deriving DecidableEq, Repr

/-- The compression job table. -/
structure CompressorState where
  activeCompressionJobs : List (String × CompressionJob)
deriving DecidableEq, Repr

/-- `game.title.replace(/[^a-zA-Z0-9]/g, '_')` (compressor.ts:87). -/
def sanitizeTitle (t : String) : String :=
  String.mk (t.data.map (fun c => if c.isAlphanum then c else '_'))

/-- Whether a job blocks a new `compressGame` call (compressor.ts:57-63):
an existing job in status pending or compressing. -/
def isNonTerminalJob (j : CompressionJob) : Bool :=
  decide (j.status = .pending) || decide (j.status = .compressing)

/-- Synchronous admission part of `GameCompressor.compressGame`
(compressor.ts:50-117): single-flight check, library lookup, source
directory check, then creation of the job (pending, immediately advanced to
compressing with `totalBytes` from the recursive directory walk).
`parentDir` models `path.dirname(game.installPath)`, `timestamp` the
ISO-derived file-name stamp, `dirSize` the result of
`calculateDirectorySize`.  Returns the eventual output path, or `none`
when compression was not started. -/
def compressGame (st : CompressorState) (library : List LibraryGame)
    (fsDirExists : String → Bool) (dirSize : Nat) (parentDir timestamp : String)
    (appId : String) (format : CompressionFormat) (now : Nat) :
    Option String × CompressorState :=
  let blocked :=
    match mapGet st.activeCompressionJobs appId with
    | some j => isNonTerminalJob j
    | none => false
  if blocked then (none, st)
  else
    match library.find? (fun g => decide (g.appId = appId)) with
    | none => (none, st)
    | some game =>
      if ¬ fsDirExists game.installPath then (none, st)
      else
        let outputPath :=
          parentDir ++ "/compressed/" ++ sanitizeTitle game.title ++ "_" ++ timestamp
            ++ "." ++ formatExt format
        let job : CompressionJob :=
          { appId := appId
            title := game.title
            status := .compressing
            progress := 0
            format := format
            startTime := now
            endTime := none
            errorMsg := none
            outputPath := some outputPath
            totalBytes := some dirSize
            compressedBytes := none }
        (some outputPath,
         { activeCompressionJobs := mapSet st.activeCompressionJobs appId job })

/-- The archive `entry` handler (compressor.ts:123-132): accumulate
`processedBytes` when the entry carries a truthy size, then update
`progress = min(99, floor(processed / totalBytes * 100))` when
`totalBytes` is truthy.  `entrySize` is `entry.stats && entry.stats.size`
(`none` for missing stats; `some 0` is falsy). -/
def entryHandler (acc : Nat × CompressionJob) (entrySize : Option Nat) :
    Nat × CompressionJob :=
  match entrySize with
  | some sz =>
    if sz ≠ 0 then
      let processed := acc.1 + sz
      match acc.2.totalBytes with
      | some tb =>
        if tb ≠ 0 then
          (processed,
           { acc.2 with
              progress := min 99 (processed * 100 / tb)
              compressedBytes := some processed })
        else (processed, acc.2)
      | none => (processed, acc.2)
    else acc
  | none => acc

/-- Fold a sequence of archive entry events over a job. -/
def runEntries (acc : Nat × CompressionJob) (events : List (Option Nat)) :
    Nat × CompressionJob :=
  events.foldl entryHandler acc

/-- The output-stream `close` handler (compressor.ts:134-169).  `statOk`
models whether `fs.statSync(outputPath)` succeeded: when it throws, the
job is marked failed before `progress` is ever set to 100; when it
succeeds the job is set to completed with `progress = 100`, and a failure
of the subsequent library update (`updateOk = false`) downgrades the
status to failed while `progress` stays 100. -/
def compressionCloseHandler (job : CompressionJob) (statOk updateOk : Bool)
    (errMsg : String) (endT : Nat) : CompressionJob :=
  if statOk then
    let j1 := { job with status := CStatus.completed, progress := 100, endTime := some endT }
    if updateOk then j1
    else { j1 with status := CStatus.failed, errorMsg := some errMsg }
  else { job with status := CStatus.failed, errorMsg := some errMsg, endTime := some endT }

/-!
Basic lemmas about the map model.
-/

theorem mapGet_mapSet_self {κ α : Type} [DecidableEq κ] (l : List (κ × α)) (k : κ) (v : α) :
    mapGet (mapSet l k v) k = some v := by
  induction l with
  | nil => simp [mapSet, mapGet]
  | cons p rest ih =>
    by_cases hp : p.1 = k
    · simp [mapSet, hp, mapGet]
    · simp [mapSet, hp, mapGet, ih]

theorem mapGet_mapSet_ne {κ α : Type} [DecidableEq κ] (l : List (κ × α)) (k k' : κ) (v : α)
    (h : k' ≠ k) : mapGet (mapSet l k v) k' = mapGet l k' := by
  induction l with
  | nil => simp [mapSet, mapGet, Ne.symm h]
  | cons p rest ih =>
    by_cases hp : p.1 = k
    · have hp' : ¬ p.1 = k' := by rw [hp]; exact Ne.symm h
      simp [mapSet, hp, mapGet, Ne.symm h, hp']
    · by_cases hq : p.1 = k'
      · simp [mapSet, hp, mapGet, hq, h]
      · simp [mapSet, hp, mapGet, hq, ih]

theorem mapGet_mapErase_self {κ α : Type} [DecidableEq κ] (l : List (κ × α)) (k : κ) :
    mapGet (mapErase l k) k = none := by
  induction l with
  | nil => rfl
  | cons p rest ih =>
    by_cases hp : p.1 = k
    · simpa [mapErase, List.filter_cons, hp] using ih
    · simpa [mapErase, List.filter_cons, hp, mapGet] using ih

theorem mapGet_mapErase_ne {κ α : Type} [DecidableEq κ] (l : List (κ × α)) (k k' : κ)
    (h : k' ≠ k) : mapGet (mapErase l k) k' = mapGet l k' := by
  induction l with
  | nil => rfl
  | cons p rest ih =>
    by_cases hp : p.1 = k
    · have hp' : ¬ p.1 = k' := by rw [hp]; exact Ne.symm h
      simpa [mapErase, List.filter_cons, hp, mapGet, hp', Ne.symm h] using ih
    · by_cases hq : p.1 = k'
      · simp [mapErase, List.filter_cons, hp, mapGet, hq, h]
      · simpa [mapErase, List.filter_cons, hp, mapGet, hq] using ih

theorem countP_snd_mapSet_le {κ α : Type} [DecidableEq κ] (l : List (κ × α)) (k : κ) (v : α)
    (p : α → Bool) :
    (mapSet l k v).countP (fun q => p q.2) ≤ l.countP (fun q => p q.2) + 1 := by
  induction l with
  | nil => by_cases hv : p v <;> simp [mapSet, List.countP_cons, hv]
  | cons q rest ih =>
    by_cases hp : q.1 = k
    · by_cases hv : p v <;> by_cases hq : p q.2 <;>
        (simp [mapSet, hp, List.countP_cons, hv, hq]; try omega)
    · by_cases hq : p q.2 <;> (simp [mapSet, hp, List.countP_cons, hq]; omega)

theorem countP_snd_mapSet_of_not {κ α : Type} [DecidableEq κ] (l : List (κ × α)) (k : κ)
    (v : α) (p : α → Bool) (hv : p v = false) :
    (mapSet l k v).countP (fun q => p q.2) ≤ l.countP (fun q => p q.2) := by
  induction l with
  | nil => simp [mapSet, List.countP_cons, hv]
  | cons q rest ih =>
    by_cases hp : q.1 = k
    · by_cases hq : p q.2 <;> (simp [mapSet, hp, List.countP_cons, hv, hq]; try omega)
    · by_cases hq : p q.2 <;> (simp [mapSet, hp, List.countP_cons, hq]; omega)

theorem countP_snd_mapErase_le {κ α : Type} [DecidableEq κ] (l : List (κ × α)) (k : κ)
    (p : α → Bool) :
    (mapErase l k).countP (fun q => p q.2) ≤ l.countP (fun q => p q.2) :=
  (List.filter_sublist l).countP_le _

/-!
Counting active entries.
-/

theorem activeCount_eq_pair (s : MemStorage) :
    activeCount s = s.downloadsList.countP (fun q => decide (q.2.status = DStatus.downloading)) := by
  unfold activeCount mapValues
  rw [List.countP_map]
  rfl

theorem insertByKey_length (d : Download) (l : List Download) :
    (insertByKey d l).length = l.length + 1 := by
  induction l with
  | nil => rfl
  | cons x xs ih => by_cases h : posKey x < posKey d <;> simp [insertByKey, h, ih]

theorem sortByPos_length (l : List Download) : (sortByPos l).length = l.length := by
  induction l with
  | nil => rfl
  | cons x xs ih => simp [sortByPos, insertByKey_length, ih]

theorem getActiveDownloads_length (s : MemStorage) :
    (getActiveDownloads s).length = activeCount s := by
  unfold getActiveDownloads activeCount
  rw [sortByPos_length, List.countP_eq_length_filter]

theorem activeCount_updateDownload_le (s : MemStorage) (id : Nat) (u : DownloadUpdate)
    (now : Nat) : activeCount (updateDownload s id u now).2 ≤ activeCount s + 1 := by
  unfold updateDownload
  cases h : mapGet s.downloadsList id with
  | none => simp
  | some d =>
    dsimp only
    rw [activeCount_eq_pair, activeCount_eq_pair]
    dsimp only
    exact countP_snd_mapSet_le _ _ _ (fun x : Download => decide (x.status = DStatus.downloading))

theorem activeCount_updateDownload_status_le (s : MemStorage) (id : Nat) (u : DownloadUpdate)
    (now : Nat) (st : DStatus) (hu : u.status = some st) (hst : st ≠ DStatus.downloading) :
    activeCount (updateDownload s id u now).2 ≤ activeCount s := by
  unfold updateDownload
  cases h : mapGet s.downloadsList id with
  | none => simp
  | some d =>
    dsimp only
    rw [activeCount_eq_pair, activeCount_eq_pair]
    dsimp only
    refine countP_snd_mapSet_of_not _ _ _ (fun x : Download => decide (x.status = DStatus.downloading)) ?_
    dsimp only
    split
    · simp [applyUpdate, hu, hst]
    · simp [applyUpdate, hu, hst]

theorem activeCount_createDownload (s : MemStorage) (a t : String) (ts ip : Option String)
    (now : Nat) : activeCount (createDownload s a t ts ip now).2 ≤ activeCount s := by
  unfold createDownload
  dsimp only
  rw [activeCount_eq_pair, activeCount_eq_pair]
  dsimp only
  exact countP_snd_mapSet_of_not _ _ _ (fun x : Download => decide (x.status = DStatus.downloading))
    (by simp)

theorem activeCount_removeDownload (s : MemStorage) (id : Nat) :
    activeCount (removeDownload s id).2 ≤ activeCount s := by
  unfold removeDownload
  dsimp only
  rw [activeCount_eq_pair, activeCount_eq_pair]
  dsimp only
  exact countP_snd_mapErase_le _ _ (fun x : Download => decide (x.status = DStatus.downloading))

theorem activeCount_startDownload_le (now : Nat) (s : MemStorage) (id : Nat) :
    activeCount (startDownload now s id) ≤ activeCount s + 1 :=
  activeCount_updateDownload_le ..

theorem activeCount_foldl_start_le (now : Nat) (L : List Download) (s : MemStorage) :
    activeCount (L.foldl (fun st d => startDownload now st d.id) s) ≤
      activeCount s + L.length := by
  induction L generalizing s with
  | nil => simp
  | cons d rest ih =>
    have h1 := ih (startDownload now s d.id)
    have h2 := activeCount_startDownload_le now s d.id
    simp only [List.foldl_cons, List.length_cons]
    omega

/-!
The admission pass never raises the active count above the effective limit.
-/

theorem processDownloadQueue_shape (now : Nat) (sys : Sys) :
    ∃ st, processDownloadQueue now sys = { sys with store := st } := by
  simp only [processDownloadQueue]
  split
  · exact ⟨sys.store, rfl⟩
  · split
    · exact ⟨sys.store, rfl⟩
    · exact ⟨_, rfl⟩

theorem activeCount_pass_le (now : Nat) (sys : Sys) :
    activeCount (processDownloadQueue now sys).store ≤
      max (activeCount sys.store) (effectiveMax sys) := by
  simp only [processDownloadQueue]
  split
  case isTrue h => exact le_max_left _ _
  case isFalse h =>
    have h0 : activeCount sys.store = 0 := by
      have := getActiveDownloads_length sys.store
      omega
    split
    case isTrue => exact le_max_left _ _
    case isFalse =>
      have hb := activeCount_foldl_start_le now
        ((getQueuedDownloads sys.store).take (effectiveMax sys)) sys.store
      have hl : ((getQueuedDownloads sys.store).take (effectiveMax sys)).length ≤
          effectiveMax sys := by
        rw [List.length_take]
        omega
      refine le_trans ?_ (le_max_right _ _)
      dsimp only
      omega

theorem applyOp_shape (now : Nat) (sys : Sys) (op : Op) :
    ∃ st, applyOp now sys op = { sys with store := st } := by
  cases op with
  | enqueue a t =>
    simp only [applyOp, postDownloadHandler]
    cases hex : getDownloadByAppId sys.store a with
    | some d =>
      dsimp only
      exact ⟨sys.store, rfl⟩
    | none =>
      dsimp only
      obtain ⟨st, hst⟩ := processDownloadQueue_shape now
        { sys with store := (createDownload sys.store a t none none now).2 }
      exact ⟨st, hst⟩
  | pause i =>
    simp only [applyOp, pauseHandler]
    cases hex : getDownloadById sys.store i with
    | none => exact ⟨sys.store, rfl⟩
    | some d =>
      dsimp only
      by_cases hd : d.status = DStatus.downloading
      · rw [if_neg (show ¬ d.status ≠ DStatus.downloading from fun hne => hne hd)]
        obtain ⟨st, hst⟩ := processDownloadQueue_shape now
          { sys with store := (updateDownload sys.store i { status := some .paused } now).2 }
        exact ⟨st, hst⟩
      · rw [if_pos hd]
        exact ⟨sys.store, rfl⟩
  | resume i =>
    simp only [applyOp, resumeHandler]
    cases hex : getDownloadById sys.store i with
    | none => exact ⟨sys.store, rfl⟩
    | some d =>
      dsimp only
      by_cases hd : d.status = DStatus.paused
      · rw [if_neg (show ¬ d.status ≠ DStatus.paused from fun hne => hne hd)]
        obtain ⟨st, hst⟩ := processDownloadQueue_shape now
          { sys with store := resumeReset now sys.store i }
        exact ⟨st, hst⟩
      · rw [if_pos hd]
        exact ⟨sys.store, rfl⟩
  | cancel i =>
    simp only [applyOp, cancelHandler]
    cases hex : getDownloadById sys.store i with
    | none => exact ⟨sys.store, rfl⟩
    | some d =>
      dsimp only
      obtain ⟨st, hst⟩ := processDownloadQueue_shape now
        { sys with store := (updateDownload sys.store i { status := some .canceled } now).2 }
      exact ⟨st, hst⟩
  | remove i =>
    simp only [applyOp, deleteHandler]
    cases hex : getDownloadById sys.store i with
    | none => exact ⟨sys.store, rfl⟩
    | some d =>
      dsimp only
      obtain ⟨st, hst⟩ := processDownloadQueue_shape now
        { sys with store := (removeDownload sys.store i).2 }
      exact ⟨st, hst⟩

theorem applyOp_maxC (now : Nat) (sys : Sys) (op : Op) :
    (applyOp now sys op).maxConcurrentDownloads = sys.maxConcurrentDownloads := by
  obtain ⟨st, hst⟩ := applyOp_shape now sys op
  rw [hst]

theorem effectiveMax_store (sys : Sys) (st : MemStorage) :
    effectiveMax { sys with store := st } = effectiveMax sys := rfl

theorem activeCount_applyOp_le (now : Nat) (sys : Sys) (op : Op) :
    activeCount (applyOp now sys op).store ≤
      max (activeCount sys.store) (effectiveMax sys) := by
  cases op with
  | enqueue a t =>
    simp only [applyOp, postDownloadHandler]
    cases hex : getDownloadByAppId sys.store a with
    | some d =>
      dsimp only
      exact le_max_left _ _
    | none =>
      dsimp only
      refine le_trans (activeCount_pass_le now _) (max_le_max ?_ le_rfl)
      exact activeCount_createDownload ..
  | pause i =>
    simp only [applyOp, pauseHandler]
    cases hex : getDownloadById sys.store i with
    | none => exact le_max_left _ _
    | some d =>
      dsimp only
      by_cases hd : d.status = DStatus.downloading
      · rw [if_neg (show ¬ d.status ≠ DStatus.downloading from fun hne => hne hd)]
        refine le_trans (activeCount_pass_le now _) (max_le_max ?_ le_rfl)
        exact activeCount_updateDownload_status_le _ _ _ _ .paused rfl (by simp)
      · rw [if_pos hd]
        exact le_max_left _ _
  | resume i =>
    simp only [applyOp, resumeHandler]
    cases hex : getDownloadById sys.store i with
    | none => exact le_max_left _ _
    | some d =>
      dsimp only
      by_cases hd : d.status = DStatus.paused
      · rw [if_neg (show ¬ d.status ≠ DStatus.paused from fun hne => hne hd)]
        refine le_trans (activeCount_pass_le now _) (max_le_max ?_ le_rfl)
        exact activeCount_updateDownload_status_le _ _ _ _ .queued rfl (by simp)
      · rw [if_pos hd]
        exact le_max_left _ _
  | cancel i =>
    simp only [applyOp, cancelHandler]
    cases hex : getDownloadById sys.store i with
    | none => exact le_max_left _ _
    | some d =>
      dsimp only
      refine le_trans (activeCount_pass_le now _) (max_le_max ?_ le_rfl)
      exact activeCount_updateDownload_status_le _ _ _ _ .canceled rfl (by simp)
  | remove i =>
    simp only [applyOp, deleteHandler]
    cases hex : getDownloadById sys.store i with
    | none => exact le_max_left _ _
    | some d =>
      dsimp only
      refine le_trans (activeCount_pass_le now _) (max_le_max ?_ le_rfl)
      exact activeCount_removeDownload ..

theorem runOps_activeCount_le (maxC : Nat) (h1 : 1 ≤ maxC) (ops : List (Nat × Op)) :
    ∀ sys : Sys, sys.maxConcurrentDownloads = maxC → activeCount sys.store ≤ maxC →
      activeCount (runOps sys ops).store ≤ maxC := by
  induction ops with
  | nil => intro sys _ hac; simpa [runOps] using hac
  | cons p rest ih =>
    intro sys hm hac
    have heff : effectiveMax sys = maxC := by
      unfold effectiveMax
      rw [hm, if_neg (by omega)]
    have hstep := activeCount_applyOp_le p.1 sys p.2
    rw [heff] at hstep
    have hnext : activeCount (applyOp p.1 sys p.2).store ≤ maxC :=
      le_trans hstep (max_le hac le_rfl)
    have hm' : (applyOp p.1 sys p.2).maxConcurrentDownloads = maxC := by
      rw [applyOp_maxC, hm]
    have : runOps sys (p :: rest) = runOps (applyOp p.1 sys p.2) rest := by
      cases p
      rfl
    rw [this]
    exact ih _ hm' hnext

/-!
Well-formedness of the store: every binding's value records its own key as
`id`, and keys are unique.  `createDownload`, `updateDownload` and
`removeDownload` all preserve this (keys are assigned from the monotone
`downloadCurrentId` and updates never change `id`), and it holds for the
empty store.
-/

/-- Keys are the ids of their values, and no key repeats. -/
def KeysWF (s : MemStorage) : Prop :=
  (∀ p ∈ s.downloadsList, p.2.id = p.1) ∧ (s.downloadsList.map Prod.fst).Nodup

theorem mapGet_of_mem_nodup {κ α : Type} [DecidableEq κ] (l : List (κ × α)) (k : κ) (v : α)
    (hnd : (l.map Prod.fst).Nodup) (hmem : (k, v) ∈ l) : mapGet l k = some v := by
  induction l with
  | nil => cases hmem
  | cons p rest ih =>
    rcases List.mem_cons.mp hmem with h | h
    · rw [← h]
      simp [mapGet]
    · have hk : k ∈ rest.map Prod.fst := List.mem_map.mpr ⟨(k, v), h, rfl⟩
      have hp : ¬ p.1 = k := by
        intro he
        exact (List.nodup_cons.mp hnd).1 (he ▸ hk)
      simp only [mapGet, if_neg hp]
      exact ih (List.nodup_cons.mp hnd).2 h

theorem mem_values_mapGet (s : MemStorage) (h : KeysWF s) (d : Download)
    (hd : d ∈ mapValues s.downloadsList) : mapGet s.downloadsList d.id = some d := by
  obtain ⟨p, hp, hpd⟩ := List.mem_map.mp hd
  have hid : p.1 = d.id := by rw [← hpd]; exact (h.1 p hp).symm
  have : (d.id, d) ∈ s.downloadsList := by
    have : p = (d.id, d) := by
      cases p
      simp only [Prod.mk.injEq]
      exact ⟨hid, hpd⟩
    exact this ▸ hp
  exact mapGet_of_mem_nodup _ _ _ h.2 this

theorem pairwise_ids_values (s : MemStorage) (h : KeysWF s) :
    (mapValues s.downloadsList).Pairwise (fun a b => a.id ≠ b.id) := by
  have hmap : s.downloadsList.map Prod.fst = s.downloadsList.map (fun p => p.2.id) :=
    List.map_congr_left (fun p hp => (h.1 p hp).symm)
  have hnd : (s.downloadsList.map (fun p => p.2.id)).Nodup := hmap ▸ h.2
  have := List.pairwise_map.mp hnd
  unfold mapValues
  exact List.pairwise_map.mpr this

theorem insertByKey_perm (d : Download) (l : List Download) :
    (insertByKey d l).Perm (d :: l) := by
  induction l with
  | nil => exact List.Perm.refl _
  | cons x xs ih =>
    by_cases h : posKey x < posKey d
    · simp only [insertByKey, if_pos h]
      exact (ih.cons x).trans (List.Perm.swap d x xs)
    · simp only [insertByKey, if_neg h]
      exact List.Perm.refl _

theorem sortByPos_perm (l : List Download) : (sortByPos l).Perm l := by
  induction l with
  | nil => exact List.Perm.refl _
  | cons x xs ih =>
    exact (insertByKey_perm x (sortByPos xs)).trans (ih.cons x)

theorem pairwise_ids_queued_take (sys : Sys) (h : KeysWF sys.store) (n : Nat) :
    ((getQueuedDownloads sys.store).take n).Pairwise (fun a b => a.id ≠ b.id) := by
  have h1 := pairwise_ids_values sys.store h
  have h2 : ((mapValues sys.store.downloadsList).filter
      (fun d => decide (d.status = .queued))).Pairwise (fun a b => a.id ≠ b.id) :=
    h1.sublist (List.filter_sublist _)
  have h3 : (getQueuedDownloads sys.store).Pairwise (fun a b => a.id ≠ b.id) :=
    ((sortByPos_perm _).pairwise_iff (fun hab => Ne.symm hab)).mpr h2
  exact h3.sublist (List.take_sublist _ _)

theorem mem_queued_take_mapGet (sys : Sys) (h : KeysWF sys.store) (n : Nat) (d : Download)
    (hd : d ∈ (getQueuedDownloads sys.store).take n) :
    mapGet sys.store.downloadsList d.id = some d := by
  have h1 : d ∈ getQueuedDownloads sys.store := List.mem_of_mem_take hd
  have h2 : d ∈ (mapValues sys.store.downloadsList).filter
      (fun x => decide (x.status = .queued)) := (sortByPos_perm _).mem_iff.mp h1
  exact mem_values_mapGet sys.store h d (List.mem_of_mem_filter h2)

theorem updateDownload_mapGet_ne (s : MemStorage) (i : Nat) (u : DownloadUpdate)
    (now k : Nat) (h : k ≠ i) :
    mapGet (updateDownload s i u now).2.downloadsList k = mapGet s.downloadsList k := by
  unfold updateDownload
  cases hm : mapGet s.downloadsList i with
  | none => rfl
  | some d =>
    dsimp only
    exact mapGet_mapSet_ne _ _ _ _ h

theorem startDownload_mapGet_ne (now : Nat) (s : MemStorage) (i k : Nat) (h : k ≠ i) :
    mapGet (startDownload now s i).downloadsList k = mapGet s.downloadsList k :=
  updateDownload_mapGet_ne s i _ now k h

theorem startDownload_mapGet_self (now : Nat) (s : MemStorage) (i : Nat) (d : Download)
    (h : mapGet s.downloadsList i = some d) :
    mapGet (startDownload now s i).downloadsList i =
      some { d with status := DStatus.downloading } := by
  unfold startDownload updateDownload
  rw [h]
  dsimp only
  rw [if_neg (by simp)]
  exact mapGet_mapSet_self ..

theorem foldl_start_frame (now : Nat) (L : List Download) (s : MemStorage) (k : Nat)
    (h : ∀ d ∈ L, d.id ≠ k) :
    mapGet ((L.foldl (fun st x => startDownload now st x.id) s)).downloadsList k =
      mapGet s.downloadsList k := by
  induction L generalizing s with
  | nil => rfl
  | cons x rest ih =>
    simp only [List.foldl_cons]
    rw [ih (startDownload now s x.id) (fun d hd => h d (List.mem_cons_of_mem x hd))]
    exact startDownload_mapGet_ne now s x.id k (Ne.symm (h x (List.mem_cons_self x rest)))

theorem foldl_start_sets_downloading (now : Nat) (L : List Download) (s : MemStorage)
    (hpair : L.Pairwise (fun a b => a.id ≠ b.id))
    (hmem : ∀ d ∈ L, mapGet s.downloadsList d.id = some d) :
    ∀ d ∈ L, mapGet ((L.foldl (fun st x => startDownload now st x.id) s)).downloadsList d.id
      = some { d with status := DStatus.downloading } := by
  induction L generalizing s with
  | nil => intro d hd; cases hd
  | cons x rest ih =>
    intro d hd
    have hpx := List.pairwise_cons.mp hpair
    rcases List.mem_cons.mp hd with h | h
    · subst h
      simp only [List.foldl_cons]
      rw [foldl_start_frame now rest (startDownload now s d.id) d.id
        (fun e he => Ne.symm (hpx.1 e he))]
      exact startDownload_mapGet_self now s d.id d (hmem d (List.mem_cons_self d rest))
    · simp only [List.foldl_cons]
      refine ih (startDownload now s x.id) hpx.2 ?_ d h
      intro e he
      rw [startDownload_mapGet_ne now s x.id e.id (Ne.symm (hpx.1 e he))]
      exact hmem e (List.mem_cons_of_mem x he)

theorem pass_identity_of_active (now : Nat) (sys : Sys) (h : 0 < activeCount sys.store) :
    processDownloadQueue now sys = sys := by
  simp only [processDownloadQueue]
  rw [if_pos (by rw [getActiveDownloads_length]; exact h)]

theorem pass_of_idle (now : Nat) (sys : Sys) (h : activeCount sys.store = 0)
    (hq : (getQueuedDownloads sys.store).length ≠ 0) :
    processDownloadQueue now sys =
      { sys with
        store :=
          List.foldl (fun st d => startDownload now st d.id) sys.store
            ((getQueuedDownloads sys.store).take (effectiveMax sys)) } := by
  simp only [processDownloadQueue]
  rw [if_neg (by rw [getActiveDownloads_length]; omega), if_neg hq]

/-!
Claim theorems.
-/

/-- C1: for every sequence of enqueue, pause, resume, cancel and remove
operations (each followed by its admission pass, as wired in routes.ts),
and every `maxConcurrentDownloads ≥ 1`, the number of entries with status
`downloading` in the store never exceeds `maxConcurrentDownloads`.  The
sequence of operations is arbitrary, so every intermediate state of any
run is the final state of some such sequence. -/
theorem C1_active_never_exceeds_limit (maxC : Nat) (h : 1 ≤ maxC)
    (ops : List (Nat × Op)) :
    activeCount (runOps (initialSys maxC) ops).store ≤ maxC :=
  runOps_activeCount_le maxC h ops (initialSys maxC) rfl
    (by simp [initialSys, activeCount, mapValues])

theorem C1_active_never_exceeds_limit_witness :
    1 ≤ 2 ∧ activeCount (runOps (initialSys 2)
      [(0, Op.enqueue "10" "A"), (1, Op.enqueue "20" "B"), (2, Op.enqueue "30" "C"),
       (3, Op.pause 1), (4, Op.resume 1), (5, Op.cancel 2), (6, Op.remove 3)]).store ≤ 2 :=
  ⟨by decide, C1_active_never_exceeds_limit 2 (by decide) _⟩

/-- A store with one downloading entry (id 1) and one queued entry (id 2). -/
def c2down1 : Download :=
  { id := 1, appId := "10", title := "A", status := .downloading, totalSize := none
    installPath := none, progress := 0, speed := "0 MB/s", downloaded := "0 B"
    timeRemaining := "Unknown", queuePosition := some 1, dateAdded := 0
    dateCompleted := none, errorMessage := none }

/-- The queued companion entry of `c2down1`. -/
def c2down2 : Download :=
  { id := 2, appId := "20", title := "B", status := .queued, totalSize := none
    installPath := none, progress := 0, speed := "0 MB/s", downloaded := "0 B"
    timeRemaining := "Unknown", queuePosition := some 2, dateAdded := 0
    dateCompleted := none, errorMessage := none }

/-- One entry downloading, one queued, `maxConcurrentDownloads = 2`. -/
def c2sys : Sys :=
  { store := { downloadsList := [(1, c2down1), (2, c2down2)], downloadCurrentId := 3 }
    maxConcurrentDownloads := 2 }

/-- A store with only the queued entry and `maxConcurrentDownloads = 2`. -/
def c2idleSys : Sys :=
  { store := { downloadsList := [(2, c2down2)], downloadCurrentId := 3 }
    maxConcurrentDownloads := 2 }

/-- C2 counterexample: with one entry active, `maxConcurrentDownloads = 2` and
a non-empty queue, the admission pass of routes.ts:511-540 admits nothing —
it returns as soon as any download is active, so the queued entry stays
queued, where the claim predicts one more admission. -/
theorem C2_counterexample :
    activeCount c2sys.store = 1 ∧
    c2sys.maxConcurrentDownloads = 2 ∧
    (getQueuedDownloads c2sys.store).length = 1 ∧
    processDownloadQueue 5 c2sys = c2sys ∧
    (getDownloadById (processDownloadQueue 5 c2sys).store 2).map (fun d => d.status) =
      some DStatus.queued :=
  ⟨rfl, rfl, rfl, rfl, rfl⟩

/-- C2 (amended): the admission pass admits only from an idle state.  If any
entry is active it returns the state unchanged (it does not top up to
`maxConcurrentDownloads`); if no entry is active it starts the first
`min(queued count, maxConcurrentDownloads)` queued entries in stored queue
order (ascending `queuePosition`, with 0/null ordered last), setting each to
`downloading`, and leaves every other entry untouched. -/
theorem C2_admission_only_when_idle (now : Nat) (sys : Sys) :
    (0 < activeCount sys.store → processDownloadQueue now sys = sys) ∧
    (activeCount sys.store = 0 → KeysWF sys.store →
      (∀ d ∈ (getQueuedDownloads sys.store).take (effectiveMax sys),
        getDownloadById (processDownloadQueue now sys).store d.id =
          some { d with status := DStatus.downloading }) ∧
      (∀ k : Nat, (∀ d ∈ (getQueuedDownloads sys.store).take (effectiveMax sys), d.id ≠ k) →
        getDownloadById (processDownloadQueue now sys).store k =
          getDownloadById sys.store k)) := by
  constructor
  · exact fun h => pass_identity_of_active now sys h
  · intro h0 hwf
    by_cases hq : (getQueuedDownloads sys.store).length = 0
    · have hqnil : getQueuedDownloads sys.store = [] := List.length_eq_zero.mp hq
      have hid : processDownloadQueue now sys = sys := by
        simp only [processDownloadQueue]
        rw [if_neg (by rw [getActiveDownloads_length]; omega), if_pos hq]
      constructor
      · intro d hd
        rw [hqnil] at hd
        simp at hd
      · intro k _
        rw [hid]
    · rw [pass_of_idle now sys h0 hq]
      constructor
      · intro d hd
        exact foldl_start_sets_downloading now _ sys.store
          (pairwise_ids_queued_take sys hwf _)
          (fun e he => mem_queued_take_mapGet sys hwf _ e he) d hd
      · intro k hk
        exact foldl_start_frame now _ sys.store k hk

theorem C2_admission_only_when_idle_witness :
    (0 < activeCount c2sys.store ∧ processDownloadQueue 5 c2sys = c2sys) ∧
    (activeCount c2idleSys.store = 0 ∧ KeysWF c2idleSys.store ∧
      getDownloadById (processDownloadQueue 5 c2idleSys).store 2 =
        some { c2down2 with status := DStatus.downloading }) := by
  refine ⟨⟨by decide, (C2_admission_only_when_idle 5 c2sys).1 (by decide)⟩,
    by decide, ⟨by decide, by decide⟩, ?_⟩
  refine ((C2_admission_only_when_idle 5 c2idleSys).2 (by decide)
    ⟨by decide, by decide⟩).1 c2down2 ?_
  exact List.mem_singleton_self c2down2

theorem foldl_start_mapGet_or (now : Nat) (L : List Download) (s : MemStorage) (k : Nat) :
    mapGet ((L.foldl (fun st x => startDownload now st x.id) s)).downloadsList k =
      mapGet s.downloadsList k ∨
    ∃ d, mapGet s.downloadsList k = some d ∧
      mapGet ((L.foldl (fun st x => startDownload now st x.id) s)).downloadsList k =
        some { d with status := DStatus.downloading } := by
  induction L generalizing s with
  | nil => exact Or.inl rfl
  | cons x rest ih =>
    simp only [List.foldl_cons]
    by_cases hk : x.id = k
    · subst hk
      cases hm : mapGet s.downloadsList x.id with
      | none =>
        have hs1 : startDownload now s x.id = s := by
          unfold startDownload updateDownload
          rw [hm]
        rw [hs1]
        rcases ih s with hA | ⟨d, hd, hfin⟩
        · left
          rw [hA]
          exact hm
        · rw [hm] at hd
          cases hd
      | some d =>
        have h1 : mapGet (startDownload now s x.id).downloadsList x.id =
            some { d with status := DStatus.downloading } :=
          startDownload_mapGet_self now s x.id d hm
        rcases ih (startDownload now s x.id) with hA | ⟨e, he, hfin⟩
        · right
          exact ⟨d, rfl, by rw [hA, h1]⟩
        · right
          refine ⟨d, rfl, ?_⟩
          have he2 : some e = some { d with status := DStatus.downloading } := by
            rw [← he, h1]
          cases Option.some.inj he2
          exact hfin
    · have hne : k ≠ x.id := fun h => hk h.symm
      rcases ih (startDownload now s x.id) with hA | ⟨d, hd, hfin⟩
      · left
        rw [hA, startDownload_mapGet_ne now s x.id k hne]
      · right
        refine ⟨d, ?_, hfin⟩
        rw [← startDownload_mapGet_ne now s x.id k hne]
        exact hd

theorem pass_mapGet_or (now : Nat) (sys : Sys) (k : Nat) :
    getDownloadById (processDownloadQueue now sys).store k = getDownloadById sys.store k ∨
    ∃ d, getDownloadById sys.store k = some d ∧
      getDownloadById (processDownloadQueue now sys).store k =
        some { d with status := DStatus.downloading } := by
  simp only [processDownloadQueue]
  split
  · exact Or.inl rfl
  · split
    · exact Or.inl rfl
    · exact foldl_start_mapGet_or now _ sys.store k

/-- A terminal (completed) entry for appId "10". -/
def c3done : Download :=
  { id := 1, appId := "10", title := "A", status := .completed, totalSize := none
    installPath := none, progress := 100, speed := "0 MB/s", downloaded := "0 B"
    timeRemaining := "Unknown", queuePosition := some 1, dateAdded := 0
    dateCompleted := some 9, errorMessage := none }

/-- A store holding only the terminal entry `c3done`. -/
def c3sys : Sys :=
  { store := { downloadsList := [(1, c3done)], downloadCurrentId := 2 }
    maxConcurrentDownloads := 1 }

/-- C3 counterexample: the entry for appId "10" is terminal (completed), yet
a new enqueue for "10" is still rejected with the duplicate message and
creates nothing — `getDownloadByAppId` (storage.ts:169-173) matches any
status, and the handler (routes.ts:100-107) rejects on mere existence. -/
theorem C3_counterexample :
    c3done.status = DStatus.completed ∧
    postDownloadHandler 9 c3sys "10" "A again" none none =
      Except.error "This game is already in your download queue" :=
  ⟨rfl, rfl⟩

/-- C3 (amended): enqueue fails with the duplicate rejection, leaving the
store unchanged, whenever any entry with the same appId exists — terminal or
not; when no such entry exists it succeeds, creating a fresh entry with the
next id, status queued, and (after the admission pass that the handler
triggers) that entry is present either still queued or already started. -/
theorem C3_duplicate_check_ignores_status (now : Nat) (sys : Sys) (a t : String)
    (ts ip : Option String) :
    ((getDownloadByAppId sys.store a).isSome →
      postDownloadHandler now sys a t ts ip =
        Except.error "This game is already in your download queue") ∧
    ((getDownloadByAppId sys.store a).isNone →
      ∃ sys2, postDownloadHandler now sys a t ts ip =
          Except.ok ((createDownload sys.store a t ts ip now).1, sys2) ∧
        (createDownload sys.store a t ts ip now).1.appId = a ∧
        (createDownload sys.store a t ts ip now).1.status = DStatus.queued ∧
        (createDownload sys.store a t ts ip now).1.id = sys.store.downloadCurrentId ∧
        (getDownloadById sys2.store sys.store.downloadCurrentId =
            some (createDownload sys.store a t ts ip now).1 ∨
          getDownloadById sys2.store sys.store.downloadCurrentId =
            some { (createDownload sys.store a t ts ip now).1 with
                    status := DStatus.downloading })) := by
  constructor
  · intro h
    obtain ⟨d, hd⟩ := Option.isSome_iff_exists.mp h
    unfold postDownloadHandler
    rw [hd]
  · intro h
    have hd : getDownloadByAppId sys.store a = none := Option.isNone_iff_eq_none.mp h
    refine ⟨processDownloadQueue now { sys with store := (createDownload sys.store a t ts ip now).2 },
      ?_, rfl, rfl, rfl, ?_⟩
    · unfold postDownloadHandler
      rw [hd]
    · have hpresent : getDownloadById (createDownload sys.store a t ts ip now).2
          sys.store.downloadCurrentId = some (createDownload sys.store a t ts ip now).1 := by
        unfold createDownload getDownloadById
        dsimp only
        exact mapGet_mapSet_self ..
      rcases pass_mapGet_or now { sys with store := (createDownload sys.store a t ts ip now).2 }
          sys.store.downloadCurrentId with hA | ⟨e, he, hfin⟩
      · left
        rw [hA]
        exact hpresent
      · right
        have he2 : some e = some (createDownload sys.store a t ts ip now).1 := by
          rw [← he]
          exact hpresent
        cases Option.some.inj he2
        exact hfin

theorem C3_duplicate_check_ignores_status_witness :
    ((getDownloadByAppId c3sys.store "10").isSome ∧
      postDownloadHandler 9 c3sys "10" "B" none none =
        Except.error "This game is already in your download queue") ∧
    ((getDownloadByAppId (initialSys 1).store "10").isNone ∧
      ∃ sys2, postDownloadHandler 0 (initialSys 1) "10" "A" none none =
          Except.ok ((createDownload (initialSys 1).store "10" "A" none none 0).1, sys2) ∧
        (createDownload (initialSys 1).store "10" "A" none none 0).1.appId = "10" ∧
        (createDownload (initialSys 1).store "10" "A" none none 0).1.status = DStatus.queued ∧
        (createDownload (initialSys 1).store "10" "A" none none 0).1.id =
          (initialSys 1).store.downloadCurrentId ∧
        (getDownloadById sys2.store (initialSys 1).store.downloadCurrentId =
            some (createDownload (initialSys 1).store "10" "A" none none 0).1 ∨
          getDownloadById sys2.store (initialSys 1).store.downloadCurrentId =
            some { (createDownload (initialSys 1).store "10" "A" none none 0).1 with
                    status := DStatus.downloading })) :=
  ⟨⟨by decide, (C3_duplicate_check_ignores_status 9 c3sys "10" "B" none none).1 (by decide)⟩,
   ⟨by decide, (C3_duplicate_check_ignores_status 0 (initialSys 1) "10" "A" none none).2
      (by decide)⟩⟩

/-- A paused entry (id 1, position 1). -/
def c7paused : Download :=
  { id := 1, appId := "10", title := "A", status := .paused, totalSize := none
    installPath := none, progress := 40, speed := "0 MB/s", downloaded := "0 B"
    timeRemaining := "Unknown", queuePosition := some 1, dateAdded := 0
    dateCompleted := none, errorMessage := none }

/-- A queued entry (id 2, position 2). -/
def c7queued : Download :=
  { id := 2, appId := "20", title := "B", status := .queued, totalSize := none
    installPath := none, progress := 0, speed := "0 MB/s", downloaded := "0 B"
    timeRemaining := "Unknown", queuePosition := some 2, dateAdded := 0
    dateCompleted := none, errorMessage := none }

/-- Paused entry 1 and queued entry 2; maximum queue position is 2. -/
def c7sys : Sys :=
  { store := { downloadsList := [(1, c7paused), (2, c7queued)], downloadCurrentId := 3 }
    maxConcurrentDownloads := 1 }

/-- C7 counterexample: the maximum queue position in the store is 2, so the
claim predicts the resumed entry gets position 3; the handler
(routes.ts:208) instead sets `queuePosition = 0`. -/
theorem C7_counterexample :
    c7paused.status = DStatus.paused ∧
    ((mapValues c7sys.store.downloadsList).map posOrZero).foldl max 0 = 2 ∧
    (resumeHandler 7 c7sys 1).map (fun sys2 =>
        (getDownloadById sys2.store 1).map (fun d => d.queuePosition)) =
      Except.ok (some (some 0)) ∧
    some (some 0) ≠ some (some (3 : Nat)) :=
  ⟨rfl, rfl, rfl, by decide⟩

/-- C7 (amended): resume on a paused entry resets it to queued with
`queuePosition = 0` — not max+1.  Because every queue-ordering comparator
reads `(queuePosition || 999)` and 0 is falsy, the resumed entry still sorts
behind all entries with positive positions (`posKey` = 999).  Resume on a
missing id or an entry that is not paused is rejected with the system
unchanged. -/
theorem C7_resume_sets_position_zero (now : Nat) (sys : Sys) (i : Nat) :
    (getDownloadById sys.store i = none →
      resumeHandler now sys i = Except.error "Download not found") ∧
    (∀ d, getDownloadById sys.store i = some d → d.status ≠ .paused →
      resumeHandler now sys i = Except.error "Can only resume paused downloads") ∧
    (∀ d, getDownloadById sys.store i = some d → d.status = .paused →
      resumeHandler now sys i =
        Except.ok (processDownloadQueue now { sys with store := resumeReset now sys.store i }) ∧
      getDownloadById (resumeReset now sys.store i) i =
        some { d with status := DStatus.queued, queuePosition := some 0 } ∧
      posKey { d with status := DStatus.queued, queuePosition := some 0 } = 999 ∧
      (∀ k, k ≠ i → getDownloadById (resumeReset now sys.store i) k =
        getDownloadById sys.store k)) := by
  refine ⟨?_, ?_, ?_⟩
  · intro h
    unfold resumeHandler
    rw [h]
  · intro d hd hne
    unfold resumeHandler
    rw [hd]
    dsimp only
    rw [if_pos hne]
  · intro d hd hp
    have hd' : mapGet sys.store.downloadsList i = some d := hd
    refine ⟨?_, ?_, rfl, ?_⟩
    · unfold resumeHandler
      rw [hd]
      dsimp only
      rw [if_neg (fun hne => hne hp)]
    · unfold resumeReset updateDownload
      rw [hd']
      dsimp only
      rw [if_neg (by simp)]
      exact mapGet_mapSet_self ..
    · intro k hk
      exact updateDownload_mapGet_ne sys.store i _ now k hk

theorem C7_resume_sets_position_zero_witness :
    (getDownloadById c7sys.store 99 = none ∧
      resumeHandler 7 c7sys 99 = Except.error "Download not found") ∧
    (getDownloadById c7sys.store 2 = some c7queued ∧ c7queued.status ≠ .paused ∧
      resumeHandler 7 c7sys 2 = Except.error "Can only resume paused downloads") ∧
    (getDownloadById c7sys.store 1 = some c7paused ∧ c7paused.status = .paused ∧
      getDownloadById (resumeReset 7 c7sys.store 1) 1 =
        some { c7paused with status := DStatus.queued, queuePosition := some 0 }) :=
  ⟨⟨by decide, (C7_resume_sets_position_zero 7 c7sys 99).1 (by decide)⟩,
   ⟨by decide, by decide,
    (C7_resume_sets_position_zero 7 c7sys 2).2.1 c7queued (by decide) (by decide)⟩,
   ⟨by decide, by decide,
    ((C7_resume_sets_position_zero 7 c7sys 1).2.2 c7paused (by decide) (by decide)).2.1⟩⟩

/-!
C8: reorder.
-/

theorem assignPositions_effect (order : List Nat) :
    ∀ (s : MemStorage) (i0 : Nat), order.Nodup →
      ((∀ i (hi : i < order.length),
        mapGet (assignPositions s i0 order).downloadsList (order.get ⟨i, hi⟩) =
          (mapGet s.downloadsList (order.get ⟨i, hi⟩)).map
            (fun d => { d with queuePosition := some (i0 + i + 1) })) ∧
      (∀ k, k ∉ order →
        mapGet (assignPositions s i0 order).downloadsList k = mapGet s.downloadsList k)) := by
  induction order with
  | nil =>
    intro s i0 _
    exact ⟨fun i hi => absurd hi (by simp), fun k _ => rfl⟩
  | cons did rest ih =>
    intro s i0 hnd
    have hnd' := List.nodup_cons.mp hnd
    cases hm : mapGet s.downloadsList did with
    | none =>
      have hun : assignPositions s i0 (did :: rest) = assignPositions s (i0 + 1) rest := by
        conv_lhs => unfold assignPositions
        rw [hm]
      constructor
      · intro i hi
        match i with
        | 0 =>
          have hget : (did :: rest).get ⟨0, hi⟩ = did := rfl
          rw [hget, hun, (ih s (i0 + 1) hnd'.2).2 did hnd'.1, hm]
          rfl
        | j + 1 =>
          have hj : j < rest.length := by
            have := hi
            simp at this
            omega
          have hget : (did :: rest).get ⟨j + 1, hi⟩ = rest.get ⟨j, hj⟩ := rfl
          rw [hget, hun, (ih s (i0 + 1) hnd'.2).1 j hj]
          have harith : i0 + 1 + j + 1 = i0 + (j + 1) + 1 := by omega
          rw [harith]
      · intro k hk
        have hk2 : k ∉ rest := fun he => hk (List.mem_cons_of_mem did he)
        rw [hun, (ih s (i0 + 1) hnd'.2).2 k hk2]
    | some d =>
      have ih1 := ih { s with downloadsList := mapSet s.downloadsList did { d with queuePosition := some (i0 + 1) } } (i0 + 1) hnd'.2
      have hun : assignPositions s i0 (did :: rest) =
          assignPositions { s with downloadsList := mapSet s.downloadsList did { d with queuePosition := some (i0 + 1) } } (i0 + 1) rest := by
        conv_lhs => unfold assignPositions
        rw [hm]
      constructor
      · intro i hi
        match i with
        | 0 =>
          have hget : (did :: rest).get ⟨0, hi⟩ = did := rfl
          rw [hget, hun, ih1.2 did hnd'.1]
          dsimp only
          rw [mapGet_mapSet_self, hm]
          rfl
        | j + 1 =>
          have hj : j < rest.length := by
            have := hi
            simp at this
            omega
          have hget : (did :: rest).get ⟨j + 1, hi⟩ = rest.get ⟨j, hj⟩ := rfl
          have hmem : rest.get ⟨j, hj⟩ ∈ rest := List.get_mem rest j hj
          have hne : rest.get ⟨j, hj⟩ ≠ did := fun he => hnd'.1 (he ▸ hmem)
          rw [hget, hun, ih1.1 j hj]
          dsimp only
          rw [mapGet_mapSet_ne _ _ _ _ hne]
          have harith : i0 + 1 + j + 1 = i0 + (j + 1) + 1 := by omega
          rw [harith]
      · intro k hk
        have hk1 : k ≠ did := fun he => hk (he ▸ List.mem_cons_self did rest)
        have hk2 : k ∉ rest := fun he => hk (List.mem_cons_of_mem did he)
        rw [hun, ih1.2 k hk2]
        dsimp only
        rw [mapGet_mapSet_ne _ _ _ _ hk1]

/-- An active (downloading) entry with queue position 5. -/
def c8active : Download :=
  { id := 1, appId := "10", title := "A", status := .downloading, totalSize := none
    installPath := none, progress := 10, speed := "0 MB/s", downloaded := "0 B"
    timeRemaining := "Unknown", queuePosition := some 5, dateAdded := 0
    dateCompleted := none, errorMessage := none }

/-- A store holding only the active entry `c8active`. -/
def c8store : MemStorage :=
  { downloadsList := [(1, c8active)], downloadCurrentId := 2 }

/-- C8 counterexample: entry 1 is `downloading` (not queued) with position 5,
yet `reorder([1])` assigns it position 1 — the loop of storage.ts:230-238
checks only presence, never status, so the claim's "not in queued status are
ignored" is false. -/
theorem C8_counterexample :
    c8active.status = DStatus.downloading ∧
    (mapGet (updateDownloadQueue c8store [1]).downloadsList 1).map
      (fun d => d.queuePosition) = some (some 1) ∧
    some (some 1) ≠ some (some (5 : Nat)) :=
  ⟨rfl, rfl, by decide⟩

/-- C8 (amended): for a duplicate-free id list, reorder assigns
`queuePosition = index + 1` to every listed id that is present in the store,
regardless of the entry's status; ids not present in the store are skipped,
entries not listed are untouched, and the operation never fails. -/
theorem C8_reorder_ignores_status (s : MemStorage) (newOrder : List Nat)
    (hnd : newOrder.Nodup) :
    (∀ i (hi : i < newOrder.length),
      mapGet (updateDownloadQueue s newOrder).downloadsList (newOrder.get ⟨i, hi⟩) =
        (mapGet s.downloadsList (newOrder.get ⟨i, hi⟩)).map
          (fun d => { d with queuePosition := some (i + 1) })) ∧
    (∀ k, k ∉ newOrder →
      mapGet (updateDownloadQueue s newOrder).downloadsList k = mapGet s.downloadsList k) := by
  have h := assignPositions_effect newOrder s 0 hnd
  exact ⟨fun i hi => by simpa using h.1 i hi, h.2⟩

/-- Queued entry 1 at position 1. -/
def c8q1 : Download :=
  { id := 1, appId := "10", title := "A", status := .queued, totalSize := none
    installPath := none, progress := 0, speed := "0 MB/s", downloaded := "0 B"
    timeRemaining := "Unknown", queuePosition := some 1, dateAdded := 0
    dateCompleted := none, errorMessage := none }

/-- Queued entry 2 at position 2. -/
def c8q2 : Download :=
  { id := 2, appId := "20", title := "B", status := .queued, totalSize := none
    installPath := none, progress := 0, speed := "0 MB/s", downloaded := "0 B"
    timeRemaining := "Unknown", queuePosition := some 2, dateAdded := 0
    dateCompleted := none, errorMessage := none }

/-- Queued entry 3 at position 3. -/
def c8q3 : Download :=
  { id := 3, appId := "30", title := "C", status := .queued, totalSize := none
    installPath := none, progress := 0, speed := "0 MB/s", downloaded := "0 B"
    timeRemaining := "Unknown", queuePosition := some 3, dateAdded := 0
    dateCompleted := none, errorMessage := none }

/-- A queue containing exactly the queued entries 1, 2, 3. -/
def c8qstore : MemStorage :=
  { downloadsList := [(1, c8q1), (2, c8q2), (3, c8q3)], downloadCurrentId := 4 }

theorem C8_reorder_ignores_status_witness :
    ([3, 1, 2] : List Nat).Nodup ∧
    mapGet (updateDownloadQueue c8qstore [3, 1, 2]).downloadsList 3 =
      some { c8q3 with queuePosition := some 1 } ∧
    mapGet (updateDownloadQueue c8qstore [3, 1, 2]).downloadsList 1 =
      some { c8q1 with queuePosition := some 2 } ∧
    mapGet (updateDownloadQueue c8qstore [3, 1, 2]).downloadsList 2 =
      some { c8q2 with queuePosition := some 3 } ∧
    mapGet (updateDownloadQueue c8qstore [3, 1, 2]).downloadsList 7 =
      mapGet c8qstore.downloadsList 7 :=
  ⟨by decide,
   (C8_reorder_ignores_status c8qstore [3, 1, 2] (by decide)).1 0 (by decide),
   (C8_reorder_ignores_status c8qstore [3, 1, 2] (by decide)).1 1 (by decide),
   (C8_reorder_ignores_status c8qstore [3, 1, 2] (by decide)).1 2 (by decide),
   (C8_reorder_ignores_status c8qstore [3, 1, 2] (by decide)).2 7 (by decide)⟩

theorem updateDownload_sets (s : MemStorage) (i : Nat) (u : DownloadUpdate) (now : Nat)
    (d : Download) (hd : mapGet s.downloadsList i = some d) :
    mapGet (updateDownload s i u now).2.downloadsList i = (updateDownload s i u now).1 := by
  unfold updateDownload
  rw [hd]
  dsimp only
  rw [mapGet_mapSet_self]

/-- A queued entry used for the updateDownload claims. -/
def c9entry : Download :=
  { id := 1, appId := "10", title := "A", status := .queued, totalSize := none
    installPath := none, progress := 0, speed := "0 MB/s", downloaded := "0 B"
    timeRemaining := "Unknown", queuePosition := some 1, dateAdded := 0
    dateCompleted := none, errorMessage := none }

/-- A store holding only `c9entry`. -/
def c9store : MemStorage :=
  { downloadsList := [(1, c9entry)], downloadCurrentId := 2 }

/-- An update that sets status completed and supplies `dateCompleted`
explicitly as null. -/
def c9upd : DownloadUpdate :=
  { status := some .completed, dateCompleted := some none }

/-- C9 counterexample: the update supplies `dateCompleted` (as an explicit
null) together with `status = 'completed'`; the claim says the merged value
is kept, but `!update.dateCompleted` is also true for an explicit null
(storage.ts:215), so the stored entry gets the current time instead. -/
theorem C9_counterexample :
    c9upd.dateCompleted = some none ∧
    ((updateDownload c9store 1 c9upd 42).1).map (fun d => d.dateCompleted) =
      some (some 42) ∧
    (some (some (42 : Nat)) : Option (Option Nat)) ≠ some none :=
  ⟨rfl, rfl, by decide⟩

/-- C9 (amended): updating a missing id returns `undefined` and leaves the
store unchanged; on a present entry every field not supplied keeps its stored
value, the merged row replaces the old one under the same key with all other
keys untouched, and `dateCompleted` becomes the current time exactly when the
update sets status completed and supplies no non-null `dateCompleted` (i.e.
the field is absent or an explicit null). -/
theorem C9_update_frame (s : MemStorage) (i : Nat) (u : DownloadUpdate) (now : Nat) :
    (mapGet s.downloadsList i = none → updateDownload s i u now = (none, s)) ∧
    (∀ d dr, mapGet s.downloadsList i = some d →
      (updateDownload s i u now).1 = some dr →
      ((u.id = none → dr.id = d.id) ∧
       (u.appId = none → dr.appId = d.appId) ∧
       (u.title = none → dr.title = d.title) ∧
       (u.status = none → dr.status = d.status) ∧
       (u.totalSize = none → dr.totalSize = d.totalSize) ∧
       (u.installPath = none → dr.installPath = d.installPath) ∧
       (u.progress = none → dr.progress = d.progress) ∧
       (u.speed = none → dr.speed = d.speed) ∧
       (u.downloaded = none → dr.downloaded = d.downloaded) ∧
       (u.timeRemaining = none → dr.timeRemaining = d.timeRemaining) ∧
       (u.queuePosition = none → dr.queuePosition = d.queuePosition) ∧
       (u.dateAdded = none → dr.dateAdded = d.dateAdded) ∧
       (u.errorMessage = none → dr.errorMessage = d.errorMessage)) ∧
      dr.dateCompleted =
        (if u.status = some DStatus.completed ∧ dateCompletedFalsy u.dateCompleted = true
          then some now
          else u.dateCompleted.getD d.dateCompleted) ∧
      mapGet (updateDownload s i u now).2.downloadsList i = some dr ∧
      (∀ k, k ≠ i → mapGet (updateDownload s i u now).2.downloadsList k =
        mapGet s.downloadsList k)) := by
  constructor
  · intro h
    unfold updateDownload
    rw [h]
  · intro d dr hd hr
    have hr' : dr =
        (if u.status = some DStatus.completed ∧ dateCompletedFalsy u.dateCompleted = true
          then { applyUpdate d u with dateCompleted := some now }
          else applyUpdate d u) := by
      unfold updateDownload at hr
      rw [hd] at hr
      dsimp only at hr
      exact (Option.some.inj hr).symm
    refine ⟨?_, ?_, ?_, ?_⟩
    · refine ⟨?_, ?_, ?_, ?_, ?_, ?_, ?_, ?_, ?_, ?_, ?_, ?_, ?_⟩ <;>
        (intro hn
         by_cases hc : (u.status = some DStatus.completed ∧
           dateCompletedFalsy u.dateCompleted = true)
         · first
           | (simp [hr', hc, applyUpdate, hn]; done)
           | simp [hn] at hc
         · simp [hr', hc, applyUpdate, hn])
    · by_cases hc : (u.status = some DStatus.completed ∧
        dateCompletedFalsy u.dateCompleted = true) <;> simp [hr', hc, applyUpdate]
    · rw [updateDownload_sets s i u now d hd]
      exact hr
    · intro k hk
      exact updateDownload_mapGet_ne s i u now k hk

/-- A partial update supplying only `progress`. -/
def c9wupd : DownloadUpdate := { progress := some 50 }

theorem C9_update_frame_witness :
    (mapGet c9store.downloadsList 99 = none ∧
      updateDownload c9store 99 c9wupd 7 = (none, c9store)) ∧
    (mapGet c9store.downloadsList 1 = some c9entry ∧
      (updateDownload c9store 1 c9wupd 7).1 = some { c9entry with progress := 50 } ∧
      ({ c9entry with progress := 50 } : Download).dateCompleted =
        (if c9wupd.status = some DStatus.completed ∧
            dateCompletedFalsy c9wupd.dateCompleted = true
          then some 7
          else c9wupd.dateCompleted.getD c9entry.dateCompleted)) :=
  ⟨⟨by decide, (C9_update_frame c9store 99 c9wupd 7).1 (by decide)⟩,
   ⟨by decide, by decide,
    ((C9_update_frame c9store 1 c9wupd 7).2 c9entry { c9entry with progress := 50 }
      (by decide) (by decide)).2.1⟩⟩

/-- C10: `pauseDownload` simply calls `cancelDownload` (steamcmd.ts:158-161):
both kill the registered process and remove the registry entry, returning
true exactly when a registered transfer existed, so a second call with the
same id immediately afterwards returns false. -/
theorem C10_pause_is_cancel (st : SteamCmdState) (i : Nat) :
    pauseDownload st i = cancelDownload st i ∧
    (cancelDownload st i).1 = (mapGet st.activeDownloads i).isSome ∧
    (∀ e, mapGet st.activeDownloads i = some e →
      (cancelDownload st i).2.killedPids = st.killedPids ++ [e.pid] ∧
      mapGet (cancelDownload st i).2.activeDownloads i = none) ∧
    (mapGet st.activeDownloads i = none → cancelDownload st i = (false, st)) ∧
    (cancelDownload (cancelDownload st i).2 i).1 = false := by
  refine ⟨rfl, ?_, ?_, ?_, ?_⟩
  · cases hm : mapGet st.activeDownloads i <;> simp [cancelDownload, hm]
  · intro e he
    simp only [cancelDownload, he]
    exact ⟨trivial, mapGet_mapErase_self ..⟩
  · intro h
    simp [cancelDownload, h]
  · cases hm : mapGet st.activeDownloads i with
    | none => simp [cancelDownload, hm]
    | some e => simp [cancelDownload, hm, mapGet_mapErase_self]

/-- A registry holding one transfer: download 7 driven by pid 99. -/
def c10state : SteamCmdState :=
  { activeDownloads := [(7, { pid := 99, appId := "10" })], killedPids := []
    errorLog := [], completedLog := [], progressLog := [], stdinLog := [] }

theorem C10_pause_is_cancel_witness :
    pauseDownload c10state 7 = cancelDownload c10state 7 ∧
    mapGet c10state.activeDownloads 7 = some { pid := 99, appId := "10" } ∧
    (cancelDownload c10state 7).2.killedPids = [99] ∧
    mapGet (cancelDownload c10state 7).2.activeDownloads 7 = none ∧
    (cancelDownload (cancelDownload c10state 7).2 7).1 = false :=
  ⟨(C10_pause_is_cancel c10state 7).1, by decide,
   ((C10_pause_is_cancel c10state 7).2.2.1 { pid := 99, appId := "10" } (by decide)).1,
   ((C10_pause_is_cancel c10state 7).2.2.1 { pid := 99, appId := "10" } (by decide)).2,
   (C10_pause_is_cancel c10state 7).2.2.2.2⟩

/-- A registry holding one transfer for the Steam Guard scenario. -/
def c4state : SteamCmdState :=
  { activeDownloads := [(7, { pid := 99, appId := "10" })], killedPids := []
    errorLog := [], completedLog := [], progressLog := [], stdinLog := [] }

/-- State after the stdout handler sees the Steam Guard prompt. -/
def c4afterPrompt : SteamCmdState :=
  stdoutDataHandler c4state 7 99 "Steam Guard code: " none false

/-- State after the killed process's close event fires (non-zero exit). -/
def c4afterClose : SteamCmdState :=
  processCloseHandler c4afterPrompt 7 1 "Steam Guard code: "

/-- C4: the stdout handler of `downloadGame` (steamcmd.ts:93-97), on seeing
the Steam Guard prompt, reports it through the generic `onError` channel and
kills the process; after the resulting close event removes the registry
entry, `submitSteamGuard` finds no transfer and returns false — the transfer
cannot be continued, contradicting the claim (and the purpose of
`submitSteamGuard`, steamcmd.ts:191-206). -/
theorem C4_steam_guard_kills_transfer :
    c4afterPrompt.errorLog = [(7, "Steam Guard code required")] ∧
    c4afterPrompt.killedPids = [99] ∧
    c4afterClose.activeDownloads = [] ∧
    (submitSteamGuard c4afterClose 7 "12345").1 = false ∧
    (submitSteamGuard c4afterClose 7 "12345").2 = c4afterClose ∧
    c4afterClose.errorLog =
      [(7, "Steam Guard code required"), (7, "Download failed with code 1")] :=
  ⟨rfl, rfl, rfl, rfl, rfl, rfl⟩

theorem mapSet_keys_subset {κ α : Type} [DecidableEq κ] (l : List (κ × α)) (k : κ) (v : α)
    (k' : κ) (h : k' ∈ (mapSet l k v).map Prod.fst) :
    k' ∈ l.map Prod.fst ∨ k' = k := by
  induction l with
  | nil =>
    simp [mapSet] at h
    exact Or.inr h
  | cons p rest ih =>
    by_cases hp : p.1 = k
    · simp only [mapSet, if_pos hp, List.map_cons, List.mem_cons] at h
      rcases h with h | h
      · exact Or.inr h
      · exact Or.inl (List.mem_cons_of_mem _ h)
    · simp only [mapSet, if_neg hp, List.map_cons, List.mem_cons] at h
      rcases h with h | h
      · exact Or.inl (by simp [h])
      · rcases ih h with h' | h'
        · exact Or.inl (List.mem_cons_of_mem _ h')
        · exact Or.inr h'

theorem mapSet_keys_nodup {κ α : Type} [DecidableEq κ] (l : List (κ × α)) (k : κ) (v : α)
    (h : (l.map Prod.fst).Nodup) : ((mapSet l k v).map Prod.fst).Nodup := by
  induction l with
  | nil => simp [mapSet]
  | cons p rest ih =>
    rw [List.map_cons] at h
    have h' := List.nodup_cons.mp h
    by_cases hp : p.1 = k
    · simp only [mapSet, if_pos hp, List.map_cons, List.nodup_cons]
      exact ⟨hp ▸ h'.1, h'.2⟩
    · simp only [mapSet, if_neg hp, List.map_cons, List.nodup_cons]
      refine ⟨?_, ih h'.2⟩
      intro hmem
      rcases mapSet_keys_subset rest k v p.1 hmem with hin | heq
      · exact h'.1 hin
      · exact hp heq

theorem compressGame_jobs_shape (st : CompressorState) (library : List LibraryGame)
    (fsDirExists : String → Bool) (dirSize : Nat) (parentDir timestamp appId : String)
    (format : CompressionFormat) (now : Nat) :
    (compressGame st library fsDirExists dirSize parentDir timestamp appId
        format now).2.activeCompressionJobs = st.activeCompressionJobs ∨
    ∃ job, (compressGame st library fsDirExists dirSize parentDir timestamp appId
        format now).2.activeCompressionJobs = mapSet st.activeCompressionJobs appId job := by
  simp only [compressGame]
  split
  · exact Or.inl rfl
  · split
    · exact Or.inl rfl
    · split
      · exact Or.inl rfl
      · exact Or.inr ⟨_, rfl⟩

/-- C5: `compressGame` (compressor.ts:50-77) is single-flight per appId: a
call while a pending or compressing job exists for that key returns null and
changes nothing; it also returns null when the source install directory does
not exist; and the job table keeps at most one entry per key. -/
theorem C5_compress_single_flight (st : CompressorState) (library : List LibraryGame)
    (fsDirExists : String → Bool) (dirSize : Nat) (parentDir timestamp appId : String)
    (format : CompressionFormat) (now : Nat) :
    (∀ j, mapGet st.activeCompressionJobs appId = some j →
      (j.status = CStatus.pending ∨ j.status = CStatus.compressing) →
      compressGame st library fsDirExists dirSize parentDir timestamp appId format now =
        (none, st)) ∧
    (∀ g, (∀ j, mapGet st.activeCompressionJobs appId = some j → isNonTerminalJob j = false) →
      library.find? (fun x => decide (x.appId = appId)) = some g →
      fsDirExists g.installPath = false →
      compressGame st library fsDirExists dirSize parentDir timestamp appId format now =
        (none, st)) ∧
    ((st.activeCompressionJobs.map Prod.fst).Nodup →
      (((compressGame st library fsDirExists dirSize parentDir timestamp appId
          format now).2).activeCompressionJobs.map Prod.fst).Nodup) := by
  refine ⟨?_, ?_, ?_⟩
  · intro j hj hst
    have hb : isNonTerminalJob j = true := by
      rcases hst with h | h <;> simp [isNonTerminalJob, h]
    simp only [compressGame, hj, hb]
    rw [if_pos trivial]
  · intro g hnb hg hfs
    have hb : (match mapGet st.activeCompressionJobs appId with
        | some j => isNonTerminalJob j
        | none => false) = false := by
      cases hm : mapGet st.activeCompressionJobs appId with
      | none => rfl
      | some j => exact hnb j hm
    simp only [compressGame, hb, hg]
    rw [if_neg (by simp), if_pos (by simp [hfs])]
  · intro hnd
    rcases compressGame_jobs_shape st library fsDirExists dirSize parentDir timestamp
        appId format now with hsh | ⟨job, hsh⟩
    · rw [hsh]
      exact hnd
    · rw [hsh]
      exact mapSet_keys_nodup _ _ _ hnd

/-- A compression job already running for appId "10". -/
def c5job : CompressionJob :=
  { appId := "10", title := "A", status := .compressing, progress := 50, format := .zip
    startTime := 0, endTime := none, errorMsg := none, outputPath := some "p"
    totalBytes := some 100, compressedBytes := some 50 }

/-- Job table holding the running job for "10". -/
def c5state : CompressorState := { activeCompressionJobs := [("10", c5job)] }

/-- An empty job table. -/
def c5empty : CompressorState := { activeCompressionJobs := [] }

/-- A one-game library for the missing-directory case. -/
def c5lib : List LibraryGame := [{ appId := "20", title := "B", installPath := "/g/20" }]

theorem C5_compress_single_flight_witness :
    (mapGet c5state.activeCompressionJobs "10" = some c5job ∧
      c5job.status = CStatus.compressing ∧
      compressGame c5state [] (fun _ => false) 0 "" "" "10" CompressionFormat.zip 0 =
        (none, c5state)) ∧
    (c5lib.find? (fun x => decide (x.appId = "20")) =
        some { appId := "20", title := "B", installPath := "/g/20" } ∧
      compressGame c5empty c5lib (fun _ => false) 0 "/g" "T" "20" CompressionFormat.zip 0 =
        (none, c5empty)) :=
  ⟨⟨by decide, by decide,
    (C5_compress_single_flight c5state [] (fun _ => false) 0 "" "" "10"
      CompressionFormat.zip 0).1 c5job (by decide) (Or.inr (by decide))⟩,
   ⟨by decide,
    (C5_compress_single_flight c5empty c5lib (fun _ => false) 0 "/g" "T" "20"
      CompressionFormat.zip 0).2.1 { appId := "20", title := "B", installPath := "/g/20" }
      (fun j hj => by simp [c5empty, mapGet] at hj) (by decide) rfl⟩⟩

theorem entryHandler_progress_le (acc : Nat × CompressionJob) (ev : Option Nat)
    (h : acc.2.progress ≤ 99) : (entryHandler acc ev).2.progress ≤ 99 := by
  unfold entryHandler
  cases ev with
  | none => exact h
  | some sz =>
    dsimp only
    split
    · split
      · split
        · dsimp only
          exact Nat.min_le_left _ _
        · exact h
      · exact h
    · exact h

theorem runEntries_progress_le (events : List (Option Nat)) :
    ∀ acc : Nat × CompressionJob, acc.2.progress ≤ 99 →
      (runEntries acc events).2.progress ≤ 99 := by
  induction events with
  | nil => intro acc h; exact h
  | cons ev rest ih =>
    intro acc h
    exact ih (entryHandler acc ev) (entryHandler_progress_le acc ev h)

/-- C6 (amended): entry events never push a job's progress above 99 (the
`Math.min(99, …)` cap of compressor.ts:127), and the close handler sets
progress to exactly 100 when the post-close `fs.statSync` succeeds; when it
throws, the job is marked failed and progress keeps its pre-close value. -/
theorem C6_progress_caps_at_99_until_close (job : CompressionJob) (processed : Nat)
    (events : List (Option Nat)) (h : job.progress ≤ 99) :
    (runEntries (processed, job) events).2.progress ≤ 99 ∧
    ∀ (updateOk : Bool) (errMsg : String) (endT : Nat),
      (compressionCloseHandler (runEntries (processed, job) events).2 true updateOk
        errMsg endT).progress = 100 ∧
      (compressionCloseHandler (runEntries (processed, job) events).2 false updateOk
        errMsg endT).progress = (runEntries (processed, job) events).2.progress ∧
      (compressionCloseHandler (runEntries (processed, job) events).2 false updateOk
        errMsg endT).status = CStatus.failed := by
  refine ⟨runEntries_progress_le events (processed, job) h, ?_⟩
  intro updateOk errMsg endT
  refine ⟨?_, rfl, rfl⟩
  unfold compressionCloseHandler
  cases updateOk <;> simp

/-- The job table and library from which the C6 scenario starts. -/
def c6state0 : CompressorState := { activeCompressionJobs := [] }

/-- A one-game library for the C6 scenario. -/
def c6lib : List LibraryGame := [{ appId := "10", title := "G", installPath := "/games/10" }]

/-- The job `compressGame` creates for the C6 scenario (directory size 100). -/
def c6job : CompressionJob :=
  { appId := "10", title := "G", status := .compressing, progress := 0, format := .zip
    startTime := 0, endTime := none, errorMsg := none
    outputPath := some "/games/compressed/G_T.zip", totalBytes := some 100
    compressedBytes := none }

/-- The job after one archive entry of 37 bytes. -/
def c6after : Nat × CompressionJob := runEntries (0, c6job) [some 37]

/-- The job after a close whose `fs.statSync` throws. -/
def c6closed : CompressionJob := compressionCloseHandler c6after.2 false true "ENOENT" 9

/-- C6 counterexample: the close callback fires but `fs.statSync(outputPath)`
throws (compressor.ts:137, caught at 158), so the job is marked failed with
progress still 37 — not 100 as the claim demands after every close. -/
theorem C6_counterexample :
    mapGet (compressGame c6state0 c6lib (fun _ => true) 100 "/games" "T" "10"
      CompressionFormat.zip 0).2.activeCompressionJobs "10" = some c6job ∧
    c6after.2.progress = 37 ∧
    c6closed.progress = 37 ∧
    (37 : Nat) ≠ 100 ∧
    c6closed.status = CStatus.failed :=
  ⟨rfl, rfl, rfl, by decide, rfl⟩

theorem C6_progress_caps_at_99_until_close_witness :
    c6job.progress ≤ 99 ∧
    (runEntries (0, c6job) [some 37, none, some 0]).2.progress ≤ 99 ∧
    (compressionCloseHandler (runEntries (0, c6job) [some 37, none, some 0]).2 true true
      "m" 9).progress = 100 :=
  ⟨by decide,
   (C6_progress_caps_at_99_until_close c6job 0 [some 37, none, some 0] (by decide)).1,
   ((C6_progress_caps_at_99_until_close c6job 0 [some 37, none, some 0] (by decide)).2
     true "m" 9).1⟩

end SGD
